import Mathlib

/-
Shallow embedding of src/db-helper.js (student-records persistence module).

Modelling conventions:
- A `Record` abstracts one student object: `id` is the value of its `id`
  property (`none` when the property is absent — `store.put` then throws a
  DataError), and `val` abstracts all remaining JSON content.
- A flat-store cell (localStorage / sessionStorage slot) is `Option Cell`:
  `none` is an absent key (`getItem` returns null), `Cell.malformed` is a
  non-empty string that `JSON.parse` rejects, and `Cell.json v` is the
  serialization of the JSON value `v` (stringify-then-parse is the identity
  at this level of abstraction).
- `JVal` covers the JSON values the module distinguishes: an array of
  records, `null` (whose `.length` access throws), and `prim truthy tag`
  for every other JSON value, where `truthy` is its JS truthiness and
  `tag` its identity.
- The IndexedDB `students` object store (keyPath `id`) is a key-sorted
  association list `List (Nat × Record)`; `getAll` returns the values in
  ascending key order, as IndexedDB does.
- All functions are single-threaded state transformers (the module runs on
  one cooperative event loop and the claims assume no concurrent writer).
  A JS function that can throw to its caller returns an `Option` result
  paired with the state at the point of the throw.
- `window.indexedDB` support is the boolean `idbAvail`; the module-level
  `db` variable being non-null is `dbOpen`. `initDB` resolves `null`
  without throwing when IndexedDB is unsupported (src/db-helper.js:21-25).
- `exportDate` (wall-clock) is omitted from the envelope; no claim
  mentions it.
-/

namespace DbHelper

structure Record where
  id : Option Nat
  val : Nat
deriving DecidableEq

inductive JVal where
  | arr (rs : List Record)
  | jnull
  | prim (truthy : Bool) (tag : Nat)
deriving DecidableEq

def JVal.isTruthy : JVal → Bool
  | .arr _ => true
  | .jnull => false
  | .prim t _ => t

def JVal.isArr : JVal → Bool
  | .arr _ => true
  | _ => false

inductive Cell where
  | json (v : JVal)
  | malformed
deriving DecidableEq

/-- The storage state visible to src/db-helper.js: IndexedDB availability,
the cached `db` handle, the IndexedDB `students` store content, and the
flat-store keys the module touches. -/
structure St where
  idbAvail : Bool
  dbOpen : Bool
  idbStudents : List (Nat × Record)
  lsStudents : Option Cell
  ssStudents : Option Cell
  lsBlocked : Option Cell
  lsDepartments : Option Cell
  lsCustomSubjects : Option Cell
  lsSettings : Option Cell
deriving DecidableEq

/-- initDB (src/db-helper.js:18-64): when IndexedDB is unsupported it
resolves null and `db` stays null; otherwise the open succeeds and the
handle is cached. Store creation on upgrade does not alter existing
content. -/
def initDB (st : St) : St :=
  if st.idbAvail then { st with dbOpen := true } else st

/-- One IndexedDB `put` on the key-sorted store: insert or replace at
key `i`. -/
def idbPut (i : Nat) (r : Record) : List (Nat × Record) → List (Nat × Record)
  | [] => [(i, r)]
  | (j, s) :: m =>
    if i < j then (i, r) :: (j, s) :: m
    else if i = j then (i, r) :: m
    else (j, s) :: idbPut i r m

/-- The put loop of saveStudents (src/db-helper.js:94-100): records are
put one by one; a record without an `id` makes `put` throw, so the loop
stops there and the Bool is false. Earlier puts stay committed (the
transaction sees no further requests and auto-commits). -/
def putAll : List Record → List (Nat × Record) → List (Nat × Record) × Bool
  | [], m => (m, true)
  | r :: rs, m =>
    match r.id with
    | none => (m, false)
    | some i => putAll rs (idbPut i r m)

/-- getAll on the students store: values in ascending key order. -/
def getAll (m : List (Nat × Record)) : List Record := m.map Prod.snd

/-- saveStudents (src/db-helper.js:71-114): write-through to localStorage
and sessionStorage first, then lazily init and full-replace the
IndexedDB store; on a throw the catch re-writes localStorage and returns
false. -/
def saveStudents (students : List Record) (st : St) : Bool × St :=
  let st1 := { st with lsStudents := some (Cell.json (JVal.arr students)),
                       ssStudents := some (Cell.json (JVal.arr students)) }
  let st2 := if st1.dbOpen then st1 else initDB st1
  if st2.dbOpen then
    let res := putAll students []
    if res.2 then
      (true, { st2 with idbStudents := res.1 })
    else
      (false, { st2 with idbStudents := res.1,
                         lsStudents := some (Cell.json (JVal.arr students)) })
  else
    (true, st2)

/-- What the flat-store branches of loadStudents return once JSON.parse
succeeded on the stored text: `null` makes the subsequent `.length`
access throw, caught by the outer catch which returns `[]`
(src/db-helper.js:149,157,163-166); any other value is returned as-is. -/
def loadFlat (v : JVal) : JVal :=
  match v with
  | .jnull => JVal.arr []
  | w => w

/-- The localStorage-then-sessionStorage fallback of loadStudents
(src/db-helper.js:145-162): an absent key falls through, malformed text
makes JSON.parse throw and the catch return `[]`, parsed content is
returned. -/
def loadLocal (st : St) : JVal × St :=
  match st.lsStudents with
  | some (Cell.json v) => (loadFlat v, st)
  | some Cell.malformed => (JVal.arr [], st)
  | none =>
    match st.ssStudents with
    | some (Cell.json v) => (loadFlat v, st)
    | some Cell.malformed => (JVal.arr [], st)
    | none => (JVal.arr [], st)

/-- loadStudents (src/db-helper.js:120-167): lazily init, read all records
from IndexedDB; when non-empty, mirror into localStorage (read-repair)
and return them; otherwise fall back to the flat tiers. -/
def loadStudents (st : St) : JVal × St :=
  let st1 := if st.dbOpen then st else initDB st
  if st1.dbOpen then
    let students := getAll st1.idbStudents
    if students.length > 0 then
      (JVal.arr students, { st1 with lsStudents := some (Cell.json (JVal.arr students)) })
    else
      loadLocal st1
  else
    loadLocal st1

structure EnvData where
  students : Option JVal
  blockedStudents : Option JVal
  departments : Option JVal
  customSubjects : Option JVal
  settings : Option JVal
deriving DecidableEq

structure Envelope where
  version : String
  data : Option EnvData
deriving DecidableEq

/-- The default `[]` used by exportData for absent keys. -/
def emptyArr : JVal := JVal.arr []

/-- The default `\x7b\x7d` (empty JSON object) used by exportData for absent
keys: a truthy non-array value; tag 0 identifies it. -/
def emptyObj : JVal := JVal.prim true 0

/-- One auxiliary read of exportData (src/db-helper.js:176-179):
`JSON.parse(localStorage.getItem(k) || dflt)`; `none` is the JSON.parse
throw on malformed stored text. -/
def parseWithDefault (c : Option Cell) (d : JVal) : Option JVal :=
  match c with
  | none => some d
  | some (Cell.json v) => some v
  | some Cell.malformed => none

/-- exportData (src/db-helper.js:173-199): load the records, parse the
four auxiliary keys (a parse failure propagates — the catch re-throws),
and wrap everything in the versioned envelope. -/
def exportData (st : St) : Option Envelope × St :=
  let p := loadStudents st
  match parseWithDefault p.2.lsBlocked emptyArr,
        parseWithDefault p.2.lsDepartments emptyArr,
        parseWithDefault p.2.lsCustomSubjects emptyObj,
        parseWithDefault p.2.lsSettings emptyObj with
  | some b, some d, some c, some s =>
    (some { version := "1.0",
            data := some { students := some p.1,
                           blockedStudents := some b,
                           departments := some d,
                           customSubjects := some c,
                           settings := some s } }, p.2)
  | _, _, _, _ => (none, p.2)

/-- One auxiliary write of importData (src/db-helper.js:220-231): written
verbatim when the field is truthy, left alone otherwise. -/
def putIf (v? : Option JVal) (old : Option Cell) : Option Cell :=
  match v? with
  | some v => if v.isTruthy then some (Cell.json v) else old
  | none => old

/-- importData (src/db-helper.js:206-239): throws on a missing/falsy
argument or `data` field; saves `data.students` when it is an array;
overwrites each truthy auxiliary field; returns true. -/
def importData (jsonData : Option Envelope) (st : St) : Option Bool × St :=
  match jsonData with
  | none => (none, st)
  | some e =>
    match e.data with
    | none => (none, st)
    | some d =>
      let st1 := match d.students with
        | some (JVal.arr rs) => (saveStudents rs st).2
        | _ => st
      let st2 := { st1 with
        lsBlocked := putIf d.blockedStudents st1.lsBlocked,
        lsDepartments := putIf d.departments st1.lsDepartments,
        lsCustomSubjects := putIf d.customSubjects st1.lsCustomSubjects,
        lsSettings := putIf d.settings st1.lsSettings }
      (some true, st2)

/-- JSON.stringify of one record, with `\x7b"v":n\x7d` abstracting the
non-id content. -/
def serRecord (r : Record) : String :=
  match r.id with
  | some i => "\x7b\"id\":" ++ toString i ++ ",\"v\":" ++ toString r.val ++ "\x7d"
  | none => "\x7b\"v\":" ++ toString r.val ++ "\x7d"

/-- Comma-joined record serializations, as JSON.stringify produces inside
an array. -/
def serList : List Record → String
  | [] => ""
  | [r] => serRecord r
  | r :: rs => serRecord r ++ "," ++ serList rs

/-- JSON.stringify of a JVal. Non-array primitives get a representative
text from their tag (no claim measures them). -/
def stringify : JVal → String
  | .arr rs => "[" ++ serList rs ++ "]"
  | .jnull => "null"
  | .prim _ t => toString t

def hexDigit (n : Nat) : Char :=
  if n < 10 then Char.ofNat (48 + n) else Char.ofNat (55 + n)

def unreservedChar (c : Char) : Bool :=
  c.isAlphanum || c = '-' || c = '_' || c = '.' || c = '!' || c = '~' ||
    c = '*' || c = '\'' || c = '(' || c = ')'

def pctChar (c : Char) : String :=
  if unreservedChar c then String.singleton c
  else "%" ++ String.singleton (hexDigit (c.toNat / 16 % 16)) ++
    String.singleton (hexDigit (c.toNat % 16))

/-- encodeURIComponent restricted to the ASCII output of `stringify`. -/
def encodeURIComponent (s : String) : String :=
  String.join (s.toList.map pctChar)

/-- generateShareableLink (src/db-helper.js:311-333): load the records;
over 50000 serialized characters yields null, otherwise the URL with the
encoded array. -/
def generateShareableLink (baseUrl : String) (st : St) : Option String × St :=
  let p := loadStudents st
  let dataSize := (stringify p.1).length
  if dataSize > 50000 then
    (none, p.2)
  else
    (some (baseUrl ++ "?students=" ++ encodeURIComponent (stringify p.1)), p.2)

/-- Every record carries an `id` property. -/
def allIds (rs : List Record) : Bool := rs.all (fun r => r.id.isSome)

/-- Every record carries an `id` and the ids are pairwise distinct — the
data model's "unique, stable identity" requirement. -/
def GoodIds (rs : List Record) : Prop :=
  (∀ r ∈ rs, r.id.isSome = true) ∧ (rs.filterMap Record.id).Nodup

/-- States reachable in a real browser: the IndexedDB store is key-sorted
with each stored record's `id` equal to its key, and a cached `db`
handle implies IndexedDB support. -/
def WF (st : St) : Prop :=
  st.idbStudents.Pairwise (fun a b => a.1 < b.1) ∧
  (∀ p ∈ st.idbStudents, p.2.id = some p.1) ∧
  (st.dbOpen = true → st.idbAvail = true)

/-- Two loadStudents results count as the same record set: arrays are
compared as sets, anything else must match exactly. -/
def loadEquiv (a b : JVal) : Prop :=
  match a, b with
  | .arr xs, .arr ys => ∀ r : Record, r ∈ xs ↔ r ∈ ys
  | x, y => x = y

/-- exportData immediately followed by importData of its envelope. -/
def roundTrip (st : St) : Option Bool × St :=
  let p := exportData st
  importData p.1 p.2

instance : DecidablePred GoodIds := fun rs => by unfold GoodIds; infer_instance

instance : DecidablePred WF := fun st => by unfold WF; infer_instance

/-- The flat-tier read of loadStudents as a function of the two cells. -/
def flatRead : Option Cell → Option Cell → JVal
  | some (Cell.json v), _ => loadFlat v
  | some Cell.malformed, _ => JVal.arr []
  | none, some (Cell.json v) => loadFlat v
  | none, some Cell.malformed => JVal.arr []
  | none, none => JVal.arr []

/-- The envelope shape exportData assembles. -/
def mkEnv (v0 vb vd vc vs : JVal) : Envelope :=
  { version := "1.0",
    data := some { students := some v0, blockedStudents := some vb,
                   departments := some vd, customSubjects := some vc,
                   settings := some vs } }

/-- The state after importData's auxiliary writes. -/
def auxWrites (vb vd vc vs : JVal) (st1 : St) : St :=
  { st1 with lsBlocked := putIf (some vb) st1.lsBlocked,
             lsDepartments := putIf (some vd) st1.lsDepartments,
             lsCustomSubjects := putIf (some vc) st1.lsCustomSubjects,
             lsSettings := putIf (some vs) st1.lsSettings }

/-- A sample record with id 1; its serialization is 14 characters. -/
def bigRec : Record := ⟨some 1, 7⟩

/-- Fresh browser with IndexedDB support. -/
def stAvail : St := ⟨true, false, [], none, none, none, none, none, none⟩

/-- Fresh browser without IndexedDB support. -/
def stNoIdb : St := ⟨false, false, [], none, none, none, none, none, none⟩

/-- IndexedDB holds one record; the durable flat key is cleared. -/
def stRepair : St := ⟨true, false, [(1, ⟨some 1, 5⟩)], none, none, none, none, none, none⟩

/-- Malformed text under the durable `students` key, nothing else. -/
def stBadLs : St := ⟨false, false, [], some Cell.malformed, none, none, none, none, none⟩

/-- Malformed text under the session `students` key, nothing else. -/
def stBadSs : St := ⟨false, false, [], none, some Cell.malformed, none, none, none, none⟩

/-- Malformed text under the `blockedStudents` key. -/
def stBadAux : St := ⟨false, false, [], none, none, some Cell.malformed, none, none, none⟩

/-- 3334 records stored under the durable flat key: 50011 serialized
characters, over the 50000-character sharing limit. -/
def stBig : St :=
  ⟨false, false, [], some (Cell.json (JVal.arr (List.replicate 3334 bigRec))),
   none, none, none, none, none⟩

/-- One stored record and all four auxiliary keys populated with
parseable JSON. -/
def stEnvRT : St :=
  ⟨true, false, [], some (Cell.json (JVal.arr [⟨some 1, 2⟩])), none,
   some (Cell.json (JVal.arr [])), some (Cell.json (JVal.arr [])),
   some (Cell.json (JVal.prim true 0)), some (Cell.json (JVal.prim true 0))⟩

/-- An envelope whose data.students is truthy but not an array. -/
def envPrim : Envelope := ⟨"1.0", some ⟨some (JVal.prim true 5), none, none, none, none⟩⟩

section Lemmas

lemma mem_idbPut {m : List (Nat × Record)} (hm : m.Pairwise (fun a b => a.1 < b.1))
    (i : Nat) (r : Record) (k : Nat) (t : Record) :
    (k, t) ∈ idbPut i r m ↔ ((k = i ∧ t = r) ∨ ((k, t) ∈ m ∧ k ≠ i)) := by
  induction m with
  | nil => simp [idbPut]
  | cons p m ih =>
    obtain ⟨j, s⟩ := p
    rw [List.pairwise_cons] at hm
    obtain ⟨hj, hm'⟩ := hm
    rw [idbPut]
    by_cases h1 : i < j
    · rw [if_pos h1]
      simp only [List.mem_cons, Prod.mk.injEq]
      constructor
      · rintro (⟨rfl, rfl⟩ | ⟨rfl, rfl⟩ | h)
        · exact Or.inl ⟨rfl, rfl⟩
        · exact Or.inr ⟨Or.inl ⟨rfl, rfl⟩, by omega⟩
        · refine Or.inr ⟨Or.inr h, ?_⟩
          have h5 : j < k := hj (k, t) h
          omega
      · rintro (⟨rfl, rfl⟩ | ⟨(⟨rfl, rfl⟩ | h), hk⟩)
        · exact Or.inl ⟨rfl, rfl⟩
        · exact Or.inr (Or.inl ⟨rfl, rfl⟩)
        · exact Or.inr (Or.inr h)
    · by_cases h2 : i = j
      · rw [if_neg h1, if_pos h2]
        subst h2
        simp only [List.mem_cons, Prod.mk.injEq]
        constructor
        · rintro (⟨rfl, rfl⟩ | h)
          · exact Or.inl ⟨rfl, rfl⟩
          · refine Or.inr ⟨Or.inr h, ?_⟩
            have h5 : i < k := hj (k, t) h
            omega
        · rintro (⟨rfl, rfl⟩ | ⟨(⟨rfl, rfl⟩ | h), hk⟩)
          · exact Or.inl ⟨rfl, rfl⟩
          · exact absurd rfl hk
          · exact Or.inr h
      · rw [if_neg h1, if_neg h2]
        simp only [List.mem_cons, Prod.mk.injEq, ih hm']
        constructor
        · rintro (⟨rfl, rfl⟩ | ⟨rfl, rfl⟩ | h)
          · exact Or.inr ⟨Or.inl ⟨rfl, rfl⟩, by omega⟩
          · exact Or.inl ⟨rfl, rfl⟩
          · exact Or.inr ⟨Or.inr h.1, h.2⟩
        · rintro (⟨rfl, rfl⟩ | ⟨(⟨rfl, rfl⟩ | h), hk⟩)
          · exact Or.inr (Or.inl ⟨rfl, rfl⟩)
          · exact Or.inl ⟨rfl, rfl⟩
          · exact Or.inr (Or.inr ⟨h, hk⟩)

lemma pairwise_idbPut {m : List (Nat × Record)} (hm : m.Pairwise (fun a b => a.1 < b.1))
    (i : Nat) (r : Record) :
    (idbPut i r m).Pairwise (fun a b => a.1 < b.1) := by
  induction m with
  | nil => simp [idbPut]
  | cons p m ih =>
    obtain ⟨j, s⟩ := p
    rw [List.pairwise_cons] at hm
    obtain ⟨hj, hm'⟩ := hm
    rw [idbPut]
    by_cases h1 : i < j
    · rw [if_pos h1]
      refine List.Pairwise.cons ?_ (List.Pairwise.cons hj hm')
      rintro ⟨k, t⟩ hk
      rcases List.mem_cons.mp hk with h | h
      · have hkj : k = j := congrArg Prod.fst h
        show i < k
        omega
      · have h5 : j < k := hj (k, t) h
        show i < k
        omega
    · by_cases h2 : i = j
      · rw [if_neg h1, if_pos h2]
        subst h2
        exact List.Pairwise.cons hj hm'
      · rw [if_neg h1, if_neg h2]
        refine List.Pairwise.cons ?_ (ih hm')
        rintro ⟨k, t⟩ hk
        rw [mem_idbPut hm'] at hk
        rcases hk with ⟨h3, h4⟩ | ⟨h, _⟩
        · show j < k
          omega
        · exact hj (k, t) h

lemma putAll_snd (rs : List Record) (m : List (Nat × Record)) :
    (putAll rs m).2 = allIds rs := by
  induction rs generalizing m with
  | nil => simp [putAll, allIds]
  | cons r rs ih =>
    rw [putAll]
    cases h : r.id with
    | none => simp [allIds, h]
    | some i => simp [allIds, ih, h, List.all_cons]

lemma putAll_pairwise {rs : List Record} {m : List (Nat × Record)}
    (hm : m.Pairwise (fun a b => a.1 < b.1)) :
    (putAll rs m).1.Pairwise (fun a b => a.1 < b.1) := by
  induction rs generalizing m with
  | nil => exact hm
  | cons r rs ih =>
    rw [putAll]
    cases h : r.id with
    | none => exact hm
    | some i => exact ih (pairwise_idbPut hm i r)

lemma mem_putAll {rs : List Record} {m : List (Nat × Record)}
    (hm : m.Pairwise (fun a b => a.1 < b.1))
    (hids : ∀ r ∈ rs, r.id.isSome = true) (hnd : (rs.filterMap Record.id).Nodup) :
    ∀ k t, (k, t) ∈ (putAll rs m).1 ↔
      ((t ∈ rs ∧ t.id = some k) ∨ ((k, t) ∈ m ∧ k ∉ rs.filterMap Record.id)) := by
  induction rs generalizing m with
  | nil => simp [putAll]
  | cons r rs ih =>
    intro k t
    have hr : r.id.isSome = true := hids r (List.mem_cons_self r rs)
    obtain ⟨i, hi⟩ := Option.isSome_iff_exists.mp hr
    rw [putAll, hi]
    have hfm : (r :: rs).filterMap Record.id = i :: rs.filterMap Record.id := by
      simp [List.filterMap_cons, hi]
    rw [hfm] at hnd
    have hni : i ∉ rs.filterMap Record.id := (List.nodup_cons.mp hnd).1
    have hnd' : (rs.filterMap Record.id).Nodup := (List.nodup_cons.mp hnd).2
    have hids' : ∀ r' ∈ rs, r'.id.isSome = true := fun r' h => hids r' (List.mem_cons_of_mem r h)
    rw [ih (pairwise_idbPut hm i r) hids' hnd' k t, mem_idbPut hm, hfm]
    constructor
    · rintro (⟨ht, hk⟩ | ⟨(⟨h3, h4⟩ | ⟨h, hk⟩), hkn⟩)
      · exact Or.inl ⟨List.mem_cons_of_mem r ht, hk⟩
      · subst h3
        subst h4
        exact Or.inl ⟨List.mem_cons_self _ _, hi⟩
      · refine Or.inr ⟨h, ?_⟩
        simp only [List.mem_cons, not_or]
        exact ⟨hk, hkn⟩
    · rintro (⟨ht, hk⟩ | ⟨h, hkn⟩)
      · rcases List.mem_cons.mp ht with h5 | ht'
        · subst h5
          rw [hi] at hk
          obtain rfl : k = i := by injection hk with hk6; omega
          exact Or.inr ⟨Or.inl ⟨rfl, rfl⟩, hni⟩
        · exact Or.inl ⟨ht', hk⟩
      · simp only [List.mem_cons, not_or] at hkn
        exact Or.inr ⟨Or.inr ⟨h, hkn.1⟩, hkn.2⟩

lemma mem_getAll (m : List (Nat × Record)) (t : Record) :
    t ∈ getAll m ↔ ∃ k, (k, t) ∈ m := by
  simp only [getAll, List.mem_map]
  constructor
  · rintro ⟨⟨k, s⟩, hm2, rfl⟩
    exact ⟨k, hm2⟩
  · rintro ⟨k, hk⟩
    exact ⟨(k, t), hk, rfl⟩

lemma mem_getAll_putAll {rs : List Record} (hg : GoodIds rs) (t : Record) :
    t ∈ getAll (putAll rs []).1 ↔ t ∈ rs := by
  obtain ⟨hids, hnd⟩ := hg
  rw [mem_getAll]
  constructor
  · rintro ⟨k, hk⟩
    rw [mem_putAll List.Pairwise.nil hids hnd] at hk
    rcases hk with ⟨ht, _⟩ | ⟨h, _⟩
    · exact ht
    · simp at h
  · intro ht
    obtain ⟨k, hk⟩ := Option.isSome_iff_exists.mp (hids t ht)
    exact ⟨k, (mem_putAll List.Pairwise.nil hids hnd k t).mpr (Or.inl ⟨ht, hk⟩)⟩

lemma goodIds_getAll {m : List (Nat × Record)}
    (h1 : m.Pairwise (fun a b => a.1 < b.1)) (h2 : ∀ p ∈ m, p.2.id = some p.1) :
    GoodIds (getAll m) := by
  constructor
  · intro t ht
    obtain ⟨k, hk⟩ := (mem_getAll m t).mp ht
    rw [h2 (k, t) hk]
    rfl
  · have hmap : (getAll m).filterMap Record.id = m.map Prod.fst := by
      induction m with
      | nil => rfl
      | cons p m ih =>
        have hp : p.2.id = some p.1 := h2 p (List.mem_cons_self p m)
        have ih' := ih (List.Pairwise.of_cons h1) (fun q hq => h2 q (List.mem_cons_of_mem p hq))
        simp [getAll, List.filterMap_cons, hp] at ih' ⊢
        exact ih'
    rw [hmap]
    have : (m.map Prod.fst).Pairwise (· < ·) := List.pairwise_map.mpr h1
    exact this.imp Nat.ne_of_lt

lemma allIds_of_goodIds {rs : List Record} (hg : GoodIds rs) : allIds rs = true := by
  unfold allIds
  rw [List.all_eq_true]
  exact fun r hr => hg.1 r hr

lemma loadLocal_eq (st : St) : loadLocal st = (flatRead st.lsStudents st.ssStudents, st) := by
  rcases st with ⟨av, op, idb, ls, ss, b, d, c, s⟩
  rcases ls with _ | ⟨v | _⟩ <;> rcases ss with _ | ⟨w | _⟩ <;> rfl

lemma saveStudents_avail (rs : List Record) (st : St) (h : st.idbAvail = true) :
    saveStudents rs st = ((putAll rs []).2,
      { st with dbOpen := true, idbStudents := (putAll rs []).1,
                lsStudents := some (Cell.json (JVal.arr rs)),
                ssStudents := some (Cell.json (JVal.arr rs)) }) := by
  rcases st with ⟨av, op, idb, ls, ss, b, d, c, s⟩
  simp only at h
  subst h
  cases op <;> cases hp : (putAll rs []).2 <;>
    simp [saveStudents, initDB, hp]

lemma saveStudents_noavail (rs : List Record) (st : St)
    (h1 : st.idbAvail = false) (h2 : st.dbOpen = false) :
    saveStudents rs st = (true,
      { st with lsStudents := some (Cell.json (JVal.arr rs)),
                ssStudents := some (Cell.json (JVal.arr rs)) }) := by
  rcases st with ⟨av, op, idb, ls, ss, b, d, c, s⟩
  simp only at h1 h2
  subst h1
  subst h2
  simp [saveStudents, initDB]

lemma loadStudents_idb (st : St) (h1 : st.dbOpen = true ∨ st.idbAvail = true)
    (h2 : st.idbStudents ≠ []) :
    loadStudents st = (JVal.arr (getAll st.idbStudents),
      { st with dbOpen := true,
                lsStudents := some (Cell.json (JVal.arr (getAll st.idbStudents))) }) := by
  rcases st with ⟨av, op, idb, ls, ss, b, d, c, s⟩
  simp only at h1 h2
  have hlen : (getAll idb).length > 0 := by
    rcases idb with _ | ⟨p, idb⟩
    · exact absurd rfl h2
    · simp [getAll]
  cases op with
  | true => simp [loadStudents, hlen]
  | false =>
    rcases h1 with h1 | h1
    · exact absurd h1 (by simp)
    · subst h1
      simp [loadStudents, initDB, hlen]

lemma loadStudents_flat (st : St)
    (h : (st.dbOpen = false ∧ st.idbAvail = false) ∨ st.idbStudents = []) :
    loadStudents st = (flatRead st.lsStudents st.ssStudents,
      { st with dbOpen := st.dbOpen || st.idbAvail }) := by
  rcases st with ⟨av, op, idb, ls, ss, b, d, c, s⟩
  simp only at h
  rcases h with ⟨h1, h2⟩ | h
  · subst h1
    subst h2
    simp [loadStudents, initDB, loadLocal_eq]
  · subst h
    cases op <;> cases av <;>
      simp [loadStudents, initDB, getAll, loadLocal_eq]

lemma load_save_avail (rs : List Record) (st : St)
    (h1 : st.idbAvail = true) (hg : GoodIds rs) :
    (saveStudents rs st).1 = true ∧
    (∃ L, (loadStudents (saveStudents rs st).2).1 = JVal.arr L ∧ (∀ t, t ∈ L ↔ t ∈ rs)) := by
  rw [saveStudents_avail rs st h1]
  refine ⟨by rw [putAll_snd]; exact allIds_of_goodIds hg, ?_⟩
  by_cases hm : (putAll rs []).1 = []
  · refine ⟨rs, ?_, fun t => Iff.rfl⟩
    rw [loadStudents_flat _ (Or.inr hm)]
    rfl
  · refine ⟨getAll (putAll rs []).1, ?_, fun t => mem_getAll_putAll hg t⟩
    rw [loadStudents_idb _ (Or.inl rfl) hm]

lemma load_save_noavail (rs : List Record) (st : St)
    (h1 : st.idbAvail = false) (h2 : st.dbOpen = false) :
    (saveStudents rs st).1 = true ∧
    (loadStudents (saveStudents rs st).2).1 = JVal.arr rs ∧
    (saveStudents rs st).2.lsStudents = some (Cell.json (JVal.arr rs)) := by
  rw [saveStudents_noavail rs st h1 h2]
  refine ⟨rfl, ?_, rfl⟩
  show (loadStudents { st with lsStudents := some (Cell.json (JVal.arr rs)),
                               ssStudents := some (Cell.json (JVal.arr rs)) }).1 = JVal.arr rs
  rw [loadStudents_flat { st with lsStudents := some (Cell.json (JVal.arr rs)),
                                  ssStudents := some (Cell.json (JVal.arr rs)) }
        (Or.inl ⟨h2, h1⟩)]
  rfl

lemma saveStudents_keeps_aux (rs : List Record) (st : St) :
    (saveStudents rs st).2.lsBlocked = st.lsBlocked ∧
    (saveStudents rs st).2.lsDepartments = st.lsDepartments ∧
    (saveStudents rs st).2.lsCustomSubjects = st.lsCustomSubjects ∧
    (saveStudents rs st).2.lsSettings = st.lsSettings := by
  rcases st with ⟨av, op, idb, ls, ss, b, d, c, s⟩
  cases op <;> cases av <;> cases hp : (putAll rs []).2 <;>
    simp [saveStudents, initDB, hp]

lemma loadStudents_keeps_aux (st : St) :
    (loadStudents st).2.lsBlocked = st.lsBlocked ∧
    (loadStudents st).2.lsDepartments = st.lsDepartments ∧
    (loadStudents st).2.lsCustomSubjects = st.lsCustomSubjects ∧
    (loadStudents st).2.lsSettings = st.lsSettings := by
  rcases st with ⟨av, op, idb, ls, ss, b, d, c, s⟩
  cases op <;> cases av <;>
    by_cases hl : (getAll idb).length > 0 <;>
    simp [loadStudents, initDB, loadLocal_eq, hl]

lemma loadStudents_fst_congr (st st' : St)
    (h1 : st'.idbAvail = st.idbAvail) (h2 : st'.dbOpen = st.dbOpen)
    (h3 : st'.idbStudents = st.idbStudents) (h4 : st'.lsStudents = st.lsStudents)
    (h5 : st'.ssStudents = st.ssStudents) :
    (loadStudents st').1 = (loadStudents st).1 := by
  rcases st with ⟨av, op, idb, ls, ss, b, d, c, s⟩
  rcases st' with ⟨av', op', idb', ls', ss', b', d', c', s'⟩
  simp only at h1 h2 h3 h4 h5
  subst h1
  subst h2
  subst h3
  subst h4
  subst h5
  cases op' <;> cases av' <;>
    by_cases hl : (getAll idb').length > 0 <;>
    simp [loadStudents, initDB, loadLocal_eq, hl]

lemma flatRead_ne_jnull (a b : Option Cell) : flatRead a b ≠ JVal.jnull := by
  rcases a with _ | ⟨v | _⟩ <;> rcases b with _ | ⟨w | _⟩ <;>
    first
    | exact fun h => JVal.noConfusion h
    | (rcases v with rs | _ | ⟨t, g⟩ <;> exact fun h => JVal.noConfusion h)
    | (rcases w with rs | _ | ⟨t, g⟩ <;> exact fun h => JVal.noConfusion h)

lemma putIf_restore (v : JVal) (c : Option Cell) (h : c = some (Cell.json v)) :
    putIf (some v) c = c := by
  unfold putIf
  by_cases ht : v.isTruthy <;> simp [ht, h]

lemma loadEquiv_refl (v : JVal) : loadEquiv v v := by
  cases v <;> simp [loadEquiv]

lemma exportData_eq (st : St) {vb vd vc vs : JVal}
    (hb : st.lsBlocked = some (Cell.json vb)) (hd : st.lsDepartments = some (Cell.json vd))
    (hc : st.lsCustomSubjects = some (Cell.json vc)) (hs : st.lsSettings = some (Cell.json vs)) :
    exportData st = (some (mkEnv (loadStudents st).1 vb vd vc vs), (loadStudents st).2) := by
  have ha := loadStudents_keeps_aux st
  rw [exportData, mkEnv]
  simp only [ha.1, ha.2.1, ha.2.2.1, ha.2.2.2, hb, hd, hc, hs, parseWithDefault]

lemma importData_env (v0 vb vd vc vs : JVal) (st0 : St) :
    importData (some (mkEnv v0 vb vd vc vs)) st0 =
    (some true,
      auxWrites vb vd vc vs (match v0 with
        | JVal.arr rs => (saveStudents rs st0).2
        | _ => st0)) := by
  cases v0 <;> rfl

lemma importData_env_arr (rs : List Record) (vb vd vc vs : JVal) (st0 : St) :
    importData (some (mkEnv (JVal.arr rs) vb vd vc vs)) st0 =
      (some true, auxWrites vb vd vc vs (saveStudents rs st0).2) := rfl

lemma importData_env_prim (t : Bool) (g : Nat) (vb vd vc vs : JVal) (st0 : St) :
    importData (some (mkEnv (JVal.prim t g) vb vd vc vs)) st0 =
      (some true, auxWrites vb vd vc vs st0) := rfl

lemma aux_restored (vb vd vc vs : JVal) (base st : St)
    (h1 : base.lsBlocked = st.lsBlocked) (h2 : base.lsDepartments = st.lsDepartments)
    (h3 : base.lsCustomSubjects = st.lsCustomSubjects) (h4 : base.lsSettings = st.lsSettings)
    (hb : st.lsBlocked = some (Cell.json vb)) (hd : st.lsDepartments = some (Cell.json vd))
    (hc : st.lsCustomSubjects = some (Cell.json vc)) (hs : st.lsSettings = some (Cell.json vs)) :
    (auxWrites vb vd vc vs base).lsBlocked = st.lsBlocked ∧
    (auxWrites vb vd vc vs base).lsDepartments = st.lsDepartments ∧
    (auxWrites vb vd vc vs base).lsCustomSubjects = st.lsCustomSubjects ∧
    (auxWrites vb vd vc vs base).lsSettings = st.lsSettings := by
  refine ⟨?_, ?_, ?_, ?_⟩
  · show putIf (some vb) base.lsBlocked = st.lsBlocked
    rw [h1]
    exact putIf_restore vb st.lsBlocked hb
  · show putIf (some vd) base.lsDepartments = st.lsDepartments
    rw [h2]
    exact putIf_restore vd st.lsDepartments hd
  · show putIf (some vc) base.lsCustomSubjects = st.lsCustomSubjects
    rw [h3]
    exact putIf_restore vc st.lsCustomSubjects hc
  · show putIf (some vs) base.lsSettings = st.lsSettings
    rw [h4]
    exact putIf_restore vs st.lsSettings hs

lemma serList_replicate_len (n : Nat) :
    (serList (List.replicate (n + 1) bigRec)).length = 15 * n + 14 := by
  induction n with
  | zero => rfl
  | succ k ih =>
    rw [List.replicate_succ, List.replicate_succ]
    show (serRecord bigRec ++ "," ++ serList (bigRec :: List.replicate k bigRec)).length
      = 15 * (k + 1) + 14
    rw [← List.replicate_succ, String.length_append, String.length_append, ih]
    have h14 : (serRecord bigRec).length = 14 := rfl
    have h1 : (",".length : Nat) = 1 := rfl
    rw [h14, h1]
    omega

lemma stringify_replicate_len (n : Nat) :
    (stringify (JVal.arr (List.replicate (n + 1) bigRec))).length = 15 * n + 16 := by
  show ("[" ++ serList (List.replicate (n + 1) bigRec) ++ "]").length = 15 * n + 16
  rw [String.length_append, String.length_append, serList_replicate_len]
  have hb1 : ("[".length : Nat) = 1 := rfl
  have hb2 : ("]".length : Nat) = 1 := rfl
  rw [hb1, hb2]
  omega

end Lemmas

section Claims

/-- C1 (counterexample): with the transactional tier available, saving the
array with two records sharing id 1 and loading back yields only the
later record — not a set equal to the saved array, so the round trip is
not set-preserving for every record array. -/
theorem claim1_counterexample :
    ¬ (∃ L, (loadStudents (saveStudents [⟨some 1, 0⟩, ⟨some 1, 1⟩] stAvail).2).1 = JVal.arr L ∧
        (∀ t : Record, t ∈ L ↔ t ∈ [(⟨some 1, 0⟩ : Record), ⟨some 1, 1⟩])) := by
  rintro ⟨L, hL, hmem⟩
  have h0 : (loadStudents (saveStudents [⟨some 1, 0⟩, ⟨some 1, 1⟩] stAvail).2).1
      = JVal.arr [⟨some 1, 1⟩] := by decide
  rw [h0] at hL
  injection hL with hL2
  subst hL2
  have h1 := (hmem ⟨some 1, 0⟩).mpr (by decide)
  exact absurd h1 (by decide)

/-- C1 (amended): with the transactional tier available and every record
of R bearing an id, the ids pairwise distinct, loadStudents after
saveStudents(R) returns a record array equal to R as a set. -/
theorem claim1_amended (rs : List Record) (st : St)
    (h1 : st.idbAvail = true) (hg : GoodIds rs) :
    ∃ L, (loadStudents (saveStudents rs st).2).1 = JVal.arr L ∧
      (∀ t : Record, t ∈ L ↔ t ∈ rs) :=
  (load_save_avail rs st h1 hg).2

/-- C1 (witness): the amended round trip at a two-record array with
distinct ids on a fresh IndexedDB-capable state. -/
theorem claim1_witness :
    stAvail.idbAvail = true ∧ GoodIds [⟨some 1, 0⟩, ⟨some 2, 3⟩] ∧
    (∃ L, (loadStudents (saveStudents [⟨some 1, 0⟩, ⟨some 2, 3⟩] stAvail).2).1 = JVal.arr L ∧
      (∀ t : Record, t ∈ L ↔ t ∈ [(⟨some 1, 0⟩ : Record), ⟨some 2, 3⟩])) :=
  ⟨rfl, by decide, claim1_amended [⟨some 1, 0⟩, ⟨some 2, 3⟩] stAvail rfl (by decide)⟩

/-- C2: with no IndexedDB capability and db still null, saveStudents
reports success, writes the serialization of R to the durable flat key,
and a subsequent loadStudents returns exactly R from that tier. -/
theorem claim2 (rs : List Record) (st : St)
    (h1 : st.idbAvail = false) (h2 : st.dbOpen = false) :
    (saveStudents rs st).1 = true ∧
    (loadStudents (saveStudents rs st).2).1 = JVal.arr rs ∧
    (saveStudents rs st).2.lsStudents = some (Cell.json (JVal.arr rs)) :=
  load_save_noavail rs st h1 h2

/-- C2 (witness): the fallback round trip at a one-record array on a
fresh IndexedDB-less state. -/
theorem claim2_witness :
    stNoIdb.idbAvail = false ∧ stNoIdb.dbOpen = false ∧
    ((saveStudents [bigRec] stNoIdb).1 = true ∧
     (loadStudents (saveStudents [bigRec] stNoIdb).2).1 = JVal.arr [bigRec] ∧
     (saveStudents [bigRec] stNoIdb).2.lsStudents = some (Cell.json (JVal.arr [bigRec]))) :=
  ⟨rfl, rfl, claim2 [bigRec] stNoIdb rfl rfl⟩

/-- C3 (counterexample): when the transactional tier holds the empty
record set and the durable flat key is cleared, loadStudents performs no
read-repair — the durable flat key stays absent rather than receiving
the serialization of the (empty) record set. -/
theorem claim3_counterexample :
    stAvail.idbAvail = true ∧ stAvail.lsStudents = none ∧
    getAll stAvail.idbStudents = [] ∧
    (loadStudents stAvail).2.lsStudents ≠
      some (Cell.json (JVal.arr (getAll stAvail.idbStudents))) := by
  refine ⟨rfl, rfl, rfl, ?_⟩
  decide

/-- C3 (amended): when the transactional tier holds a nonempty record
set R and the durable flat key is cleared, loadStudents returns R and
afterwards the durable flat key holds the serialization of R. -/
theorem claim3_amended (st : St) (h1 : st.idbAvail = true)
    (h2 : st.lsStudents = none) (h3 : st.idbStudents ≠ []) :
    (loadStudents st).1 = JVal.arr (getAll st.idbStudents) ∧
    (loadStudents st).2.lsStudents = some (Cell.json (JVal.arr (getAll st.idbStudents))) := by
  rw [loadStudents_idb st (Or.inr h1) h3]
  exact ⟨rfl, rfl⟩

/-- C3 (witness): read-repair at a one-record transactional store with
the durable flat key cleared. -/
theorem claim3_witness :
    stRepair.idbAvail = true ∧ stRepair.lsStudents = none ∧ stRepair.idbStudents ≠ [] ∧
    ((loadStudents stRepair).1 = JVal.arr (getAll stRepair.idbStudents) ∧
     (loadStudents stRepair).2.lsStudents =
       some (Cell.json (JVal.arr (getAll stRepair.idbStudents)))) :=
  ⟨rfl, rfl, by decide, claim3_amended stRepair rfl rfl (by decide)⟩

/-- C5: every call to saveStudents(R) leaves the serialization of R in
both flat stores under `students` — on the success path and on the catch
path alike — and when the transactional tier is available and a record
lacks an id (the put throws), the call returns false. -/
theorem claim5 (rs : List Record) (st : St) :
    ((saveStudents rs st).2.lsStudents = some (Cell.json (JVal.arr rs)) ∧
     (saveStudents rs st).2.ssStudents = some (Cell.json (JVal.arr rs))) ∧
    (st.idbAvail = true → allIds rs = false → (saveStudents rs st).1 = false) := by
  constructor
  · rcases st with ⟨av, op, idb, ls, ss, b, d, c, s⟩
    cases op <;> cases av <;> cases hp : (putAll rs []).2 <;>
      simp [saveStudents, initDB, hp]
  · intro h1 h2
    rw [saveStudents_avail rs st h1]
    show (putAll rs []).2 = false
    rw [putAll_snd]
    exact h2

/-- C5 (witness): saving a single id-less record on an IndexedDB-capable
state writes both flat stores and returns false. -/
theorem claim5_witness :
    ((saveStudents [⟨none, 0⟩] stAvail).2.lsStudents = some (Cell.json (JVal.arr [⟨none, 0⟩])) ∧
     (saveStudents [⟨none, 0⟩] stAvail).2.ssStudents = some (Cell.json (JVal.arr [⟨none, 0⟩]))) ∧
    (stAvail.idbAvail = true ∧ allIds [⟨none, 0⟩] = false ∧
     (saveStudents [⟨none, 0⟩] stAvail).1 = false) :=
  ⟨(claim5 [⟨none, 0⟩] stAvail).1, rfl, rfl, (claim5 [⟨none, 0⟩] stAvail).2 rfl rfl⟩

/-- C6: with the transactional tier yielding nothing, malformed JSON
under the durable `students` key makes loadStudents return the empty
array rather than throw, and likewise for malformed JSON under the
session key when the durable key is absent. -/
theorem claim6 :
    (∀ st : St, st.lsStudents = some Cell.malformed →
      ((st.dbOpen = false ∧ st.idbAvail = false) ∨ st.idbStudents = []) →
      (loadStudents st).1 = JVal.arr []) ∧
    (∀ st : St, st.lsStudents = none → st.ssStudents = some Cell.malformed →
      ((st.dbOpen = false ∧ st.idbAvail = false) ∨ st.idbStudents = []) →
      (loadStudents st).1 = JVal.arr []) := by
  constructor
  · intro st h1 h2
    rw [loadStudents_flat st h2]
    show flatRead st.lsStudents st.ssStudents = JVal.arr []
    rw [h1]
    rfl
  · intro st h1 h2 h3
    rw [loadStudents_flat st h3]
    show flatRead st.lsStudents st.ssStudents = JVal.arr []
    rw [h1, h2]
    rfl

/-- C6 (witness): malformed durable text and malformed session text each
yield the empty array. -/
theorem claim6_witness :
    (loadStudents stBadLs).1 = JVal.arr [] ∧ (loadStudents stBadSs).1 = JVal.arr [] :=
  ⟨claim6.1 stBadLs rfl (Or.inr rfl), claim6.2 stBadSs rfl rfl (Or.inr rfl)⟩

/-- C7: when the stored record set loads as an array, generateShareableLink
returns null exactly when the serialization exceeds 50000 characters, and
otherwise the URL embedding the encoded record array. -/
theorem claim7 (b : String) (st : St) (rs : List Record)
    (h : (loadStudents st).1 = JVal.arr rs) :
    (generateShareableLink b st).1 =
      if 50000 < (stringify (JVal.arr rs)).length then none
      else some (b ++ "?students=" ++ encodeURIComponent (stringify (JVal.arr rs))) := by
  simp only [generateShareableLink, h]
  by_cases hlen : 50000 < (stringify (JVal.arr rs)).length
  · simp [hlen]
  · simp [hlen]

/-- C7 (witness): 3334 stored records serialize to 50011 characters and
the link comes back null. -/
theorem claim7_witness : (generateShareableLink "student_search.html" stBig).1 = none := by
  have h : (loadStudents stBig).1 = JVal.arr (List.replicate 3334 bigRec) := by
    rw [loadStudents_flat stBig (Or.inl ⟨rfl, rfl⟩)]
    rfl
  rw [claim7 "student_search.html" stBig (List.replicate 3334 bigRec) h]
  have hlt : 50000 < (stringify (JVal.arr (List.replicate 3334 bigRec))).length := by
    have hh := stringify_replicate_len 3333
    have he : (3333 : Nat) + 1 = 3334 := rfl
    rw [he] at hh
    omega
  rw [if_pos hlt]

/-- C8: importData throws exactly when its argument or the argument's
data field is missing/falsy, and in every other case it completes and
returns true. -/
theorem claim8 (j : Option Envelope) (st : St) :
    (importData j st).1 = Option.map (fun _ => true) (j.bind Envelope.data) := by
  cases j with
  | none => rfl
  | some e =>
    cases hd : e.data with
    | none => simp [importData, hd]
    | some d => simp [importData, hd]

/-- C9: malformed JSON under any of the four auxiliary durable keys makes
exportData throw — the parse error propagates instead of being swallowed
as it is in loadStudents. -/
theorem claim9 (st : St)
    (h : st.lsBlocked = some Cell.malformed ∨ st.lsDepartments = some Cell.malformed ∨
         st.lsCustomSubjects = some Cell.malformed ∨ st.lsSettings = some Cell.malformed) :
    (exportData st).1 = none := by
  have ha := loadStudents_keeps_aux st
  rcases h with h | h | h | h <;>
    simp only [exportData, ha.1, ha.2.1, ha.2.2.1, ha.2.2.2, h, parseWithDefault] <;>
    (repeat' split) <;> simp_all

/-- C9 (witness): malformed text under blockedStudents makes the export
throw. -/
theorem claim9_witness : (exportData stBadAux).1 = none :=
  claim9 stBadAux (Or.inl rfl)

/-- C10: an envelope whose data.students is truthy but not an array makes
importData skip the record save — the students data in the primary store
and in both flat tiers is untouched — while still returning true. -/
theorem claim10 (st : St) (e : Envelope) (d : EnvData) (v : JVal)
    (h1 : e.data = some d) (h2 : d.students = some v)
    (h3 : v.isArr = false) (h4 : v.isTruthy = true) :
    (importData (some e) st).1 = some true ∧
    (importData (some e) st).2.lsStudents = st.lsStudents ∧
    (importData (some e) st).2.ssStudents = st.ssStudents ∧
    (importData (some e) st).2.idbStudents = st.idbStudents ∧
    (importData (some e) st).2.dbOpen = st.dbOpen := by
  cases v with
  | arr rs => exact absurd h3 (by simp [JVal.isArr])
  | jnull => exact absurd h4 (by simp [JVal.isTruthy])
  | prim t g => simp [importData, h1, h2]

/-- C10 (witness): an envelope carrying the number 5 as data.students on
a fresh IndexedDB-capable state. -/
theorem claim10_witness :
    (JVal.prim true 5).isArr = false ∧ (JVal.prim true 5).isTruthy = true ∧
    ((importData (some envPrim) stAvail).1 = some true ∧
     (importData (some envPrim) stAvail).2.lsStudents = stAvail.lsStudents ∧
     (importData (some envPrim) stAvail).2.ssStudents = stAvail.ssStudents ∧
     (importData (some envPrim) stAvail).2.idbStudents = stAvail.idbStudents ∧
     (importData (some envPrim) stAvail).2.dbOpen = stAvail.dbOpen) :=
  ⟨rfl, rfl, claim10 stAvail envPrim ⟨some (JVal.prim true 5), none, none, none, none⟩
    (JVal.prim true 5) rfl rfl rfl rfl⟩

/-- C4 (counterexample): on a state whose blockedStudents key is absent,
importData(exportData()) writes the export default back, so the key ends
up holding the serialization of [] instead of staying absent — the
auxiliary keys are not left unchanged for every storage state. -/
theorem claim4_counterexample :
    stNoIdb.lsBlocked = none ∧
    (roundTrip stNoIdb).2.lsBlocked = some (Cell.json (JVal.arr [])) :=
  ⟨rfl, by decide⟩

/-- C4 (amended): on a well-formed state whose four auxiliary keys hold
parseable JSON and whose loaded record array has pairwise-distinct
present ids whenever the transactional tier is available,
importData(exportData()) succeeds and leaves the loadStudents result
unchanged (arrays compared as sets) and all four auxiliary keys
unchanged. -/
theorem claim4_amended (st : St) (hwf : WF st)
    (hb : ∃ v, st.lsBlocked = some (Cell.json v))
    (hd : ∃ v, st.lsDepartments = some (Cell.json v))
    (hc : ∃ v, st.lsCustomSubjects = some (Cell.json v))
    (hs : ∃ v, st.lsSettings = some (Cell.json v))
    (hids : st.idbAvail = true → ∀ rs, (loadStudents st).1 = JVal.arr rs → GoodIds rs) :
    (roundTrip st).1 = some true ∧
    loadEquiv (loadStudents (roundTrip st).2).1 (loadStudents st).1 ∧
    (roundTrip st).2.lsBlocked = st.lsBlocked ∧
    (roundTrip st).2.lsDepartments = st.lsDepartments ∧
    (roundTrip st).2.lsCustomSubjects = st.lsCustomSubjects ∧
    (roundTrip st).2.lsSettings = st.lsSettings := by
  obtain ⟨vb, hb2⟩ := hb
  obtain ⟨vd, hd2⟩ := hd
  obtain ⟨vc, hc2⟩ := hc
  obtain ⟨vs, hs2⟩ := hs
  have hexp := exportData_eq st hb2 hd2 hc2 hs2
  have hauxl := loadStudents_keeps_aux st
  by_cases hbr : (st.dbOpen = true ∨ st.idbAvail = true) ∧ st.idbStudents ≠ []
  · obtain ⟨hbo, hne⟩ := hbr
    have hav : st.idbAvail = true := by
      rcases hbo with hdb | hv
      · exact hwf.2.2 hdb
      · exact hv
    have hload := loadStudents_idb st hbo hne
    have hfst : (loadStudents st).1 = JVal.arr (getAll st.idbStudents) := by rw [hload]
    rw [hfst] at hexp
    have hrt : roundTrip st = (some true,
        auxWrites vb vd vc vs (saveStudents (getAll st.idbStudents) (loadStudents st).2).2) := by
      show importData (exportData st).1 (exportData st).2 = _
      rw [hexp]
      exact importData_env_arr (getAll st.idbStudents) vb vd vc vs (loadStudents st).2
    rw [hrt]
    have hauxb := saveStudents_keeps_aux (getAll st.idbStudents) (loadStudents st).2
    have hA := aux_restored vb vd vc vs
      ((saveStudents (getAll st.idbStudents) (loadStudents st).2).2) st
      (hauxb.1.trans hauxl.1) (hauxb.2.1.trans hauxl.2.1)
      (hauxb.2.2.1.trans hauxl.2.2.1) (hauxb.2.2.2.trans hauxl.2.2.2) hb2 hd2 hc2 hs2
    refine ⟨rfl, ?_, hA.1, hA.2.1, hA.2.2.1, hA.2.2.2⟩
    have h0av : (loadStudents st).2.idbAvail = true := by
      rw [hload]
      exact hav
    obtain ⟨-, L, hL, hmem⟩ := load_save_avail (getAll st.idbStudents) (loadStudents st).2 h0av
      (goodIds_getAll hwf.1 hwf.2.1)
    show loadEquiv (loadStudents (auxWrites vb vd vc vs
      (saveStudents (getAll st.idbStudents) (loadStudents st).2).2)).1 (loadStudents st).1
    rw [loadStudents_fst_congr ((saveStudents (getAll st.idbStudents) (loadStudents st).2).2)
      (auxWrites vb vd vc vs ((saveStudents (getAll st.idbStudents) (loadStudents st).2).2))
      rfl rfl rfl rfl rfl, hL, hfst]
    exact hmem
  · push_neg at hbr
    have hflat : (st.dbOpen = false ∧ st.idbAvail = false) ∨ st.idbStudents = [] := by
      by_cases hdb : st.dbOpen = true
      · exact Or.inr (hbr (Or.inl hdb))
      · by_cases hv : st.idbAvail = true
        · exact Or.inr (hbr (Or.inr hv))
        · exact Or.inl ⟨by simpa using hdb, by simpa using hv⟩
    have hload := loadStudents_flat st hflat
    have hsnd : (loadStudents st).2 = { st with dbOpen := st.dbOpen || st.idbAvail } := by
      rw [hload]
    cases hvf : flatRead st.lsStudents st.ssStudents with
    | jnull => exact absurd hvf (flatRead_ne_jnull _ _)
    | arr rs =>
      have hfst : (loadStudents st).1 = JVal.arr rs := by
        rw [hload]
        exact hvf
      rw [hfst] at hexp
      have hrt : roundTrip st = (some true,
          auxWrites vb vd vc vs (saveStudents rs (loadStudents st).2).2) := by
        show importData (exportData st).1 (exportData st).2 = _
        rw [hexp]
        exact importData_env_arr rs vb vd vc vs (loadStudents st).2
      rw [hrt]
      have hauxb := saveStudents_keeps_aux rs (loadStudents st).2
      have hA := aux_restored vb vd vc vs ((saveStudents rs (loadStudents st).2).2) st
        (hauxb.1.trans hauxl.1) (hauxb.2.1.trans hauxl.2.1)
        (hauxb.2.2.1.trans hauxl.2.2.1) (hauxb.2.2.2.trans hauxl.2.2.2) hb2 hd2 hc2 hs2
      refine ⟨rfl, ?_, hA.1, hA.2.1, hA.2.2.1, hA.2.2.2⟩
      by_cases hav : st.idbAvail = true
      · have hg : GoodIds rs := hids hav rs hfst
        have h0av : (loadStudents st).2.idbAvail = true := by
          rw [hsnd]
          exact hav
        obtain ⟨-, L, hL, hmem⟩ := load_save_avail rs (loadStudents st).2 h0av hg
        show loadEquiv (loadStudents (auxWrites vb vd vc vs
          (saveStudents rs (loadStudents st).2).2)).1 (loadStudents st).1
        rw [loadStudents_fst_congr ((saveStudents rs (loadStudents st).2).2)
          (auxWrites vb vd vc vs ((saveStudents rs (loadStudents st).2).2))
          rfl rfl rfl rfl rfl, hL, hfst]
        exact hmem
      · have hav' : st.idbAvail = false := by simpa using hav
        have hop : st.dbOpen = false := by
          cases hx : st.dbOpen with
          | false => rfl
          | true =>
            have h := hwf.2.2 hx
            rw [hav'] at h
            exact absurd h (by simp)
        have h0av : (loadStudents st).2.idbAvail = false := by
          rw [hsnd]
          exact hav'
        have h0op : (loadStudents st).2.dbOpen = false := by
          rw [hsnd]
          show (st.dbOpen || st.idbAvail) = false
          rw [hop, hav']
          rfl
        obtain ⟨-, hL, -⟩ := load_save_noavail rs (loadStudents st).2 h0av h0op
        show loadEquiv (loadStudents (auxWrites vb vd vc vs
          (saveStudents rs (loadStudents st).2).2)).1 (loadStudents st).1
        rw [loadStudents_fst_congr ((saveStudents rs (loadStudents st).2).2)
          (auxWrites vb vd vc vs ((saveStudents rs (loadStudents st).2).2))
          rfl rfl rfl rfl rfl, hL, hfst]
        exact loadEquiv_refl _
    | prim t g =>
      have hfst : (loadStudents st).1 = JVal.prim t g := by
        rw [hload]
        exact hvf
      rw [hfst] at hexp
      have hrt : roundTrip st = (some true, auxWrites vb vd vc vs (loadStudents st).2) := by
        show importData (exportData st).1 (exportData st).2 = _
        rw [hexp]
        exact importData_env_prim t g vb vd vc vs (loadStudents st).2
      rw [hrt]
      have hA := aux_restored vb vd vc vs ((loadStudents st).2) st
        hauxl.1 hauxl.2.1 hauxl.2.2.1 hauxl.2.2.2 hb2 hd2 hc2 hs2
      refine ⟨rfl, ?_, hA.1, hA.2.1, hA.2.2.1, hA.2.2.2⟩
      have hflat2 : ((loadStudents st).2.dbOpen = false ∧ (loadStudents st).2.idbAvail = false) ∨
          (loadStudents st).2.idbStudents = [] := by
        rcases hflat with ⟨h1, h2⟩ | h1
        · left
          constructor
          · rw [hsnd]
            show (st.dbOpen || st.idbAvail) = false
            rw [h1, h2]
            rfl
          · rw [hsnd]
            exact h2
        · right
          rw [hsnd]
          exact h1
      show loadEquiv (loadStudents (auxWrites vb vd vc vs (loadStudents st).2)).1
        (loadStudents st).1
      rw [loadStudents_fst_congr ((loadStudents st).2)
        (auxWrites vb vd vc vs ((loadStudents st).2)) rfl rfl rfl rfl rfl]
      rw [loadStudents_flat ((loadStudents st).2) hflat2]
      rw [hfst]
      show loadEquiv (flatRead (loadStudents st).2.lsStudents (loadStudents st).2.ssStudents)
        (JVal.prim t g)
      have hls : (loadStudents st).2.lsStudents = st.lsStudents := by rw [hsnd]
      have hss : (loadStudents st).2.ssStudents = st.ssStudents := by rw [hsnd]
      rw [hls, hss, hvf]
      exact loadEquiv_refl _

/-- C4 (witness): the amended envelope round trip at a state with one
stored record and all four auxiliary keys populated. -/
theorem claim4_witness :
    WF stEnvRT ∧
    ((roundTrip stEnvRT).1 = some true ∧
     loadEquiv (loadStudents (roundTrip stEnvRT).2).1 (loadStudents stEnvRT).1 ∧
     (roundTrip stEnvRT).2.lsBlocked = stEnvRT.lsBlocked ∧
     (roundTrip stEnvRT).2.lsDepartments = stEnvRT.lsDepartments ∧
     (roundTrip stEnvRT).2.lsCustomSubjects = stEnvRT.lsCustomSubjects ∧
     (roundTrip stEnvRT).2.lsSettings = stEnvRT.lsSettings) :=
  ⟨by decide, claim4_amended stEnvRT (by decide) ⟨_, rfl⟩ ⟨_, rfl⟩ ⟨_, rfl⟩ ⟨_, rfl⟩
    (fun _ rs h => by
      have h2 : JVal.arr [(⟨some 1, 2⟩ : Record)] = JVal.arr rs := h
      injection h2 with h3
      subst h3
      decide)⟩

end Claims

end DbHelper
